import Mathlib

/-!
Verification of `epromimage.py` (donmeyer/eprom-image-module).

Shallow embedding conventions:
  * Python integers are `Int` (addresses may be negative); byte values are `Nat`.
  * `bytearray` / `bytes` values are `List Nat`.
  * A raised exception is an `Err` value; a procedure that mutates `self`
    before raising returns the error together with the mutated state.
  * The file system is an `Option String`: the content of the named file, or
    `none` when the file cannot be opened (host `OSError`).
  * The external `bincopy` library (segment container and the three file
    parsers) is not part of the repository; its segment-store operations are
    modelled from the spec (see `add_binary`), and the three file parsers are
    parameters of `readfile` / `scanfile`.
-/

namespace EpromImage

instance {ε α : Type} [DecidableEq ε] [DecidableEq α] : DecidableEq (Except ε α) := fun a b =>
  match a, b with
  | .ok x, .ok y => if h : x = y then .isTrue (by rw [h]) else .isFalse (by simp [h])
  | .error x, .error y => if h : x = y then .isTrue (by rw [h]) else .isFalse (by simp [h])
  | .ok _, .error _ => .isFalse (by simp)
  | .error _, .ok _ => .isFalse (by simp)

/-- Python exception classes of the errors that can escape the module. -/
inductive PyClass where
  /-- `epromimage.Error` — the module's single exception class. -/
  | moduleError
  /-- host `OSError` (missing file, permission). -/
  | osError
  /-- host `IndexError` (`line[0]` on an empty string, epromimage.py:285). -/
  | indexError
  /-- host `TypeError` (`None - 1` in `scanfile` on an empty bincopy store). -/
  | typeError
  /-- `bincopy.Error` escaping uncaught (`scanfile` has no try/except). -/
  | bincopyError
deriving DecidableEq, Repr

/-- Error values, one constructor per raise site of `epromimage.py` (plus the
host errors that can escape).  The payloads are the values interpolated into
the corresponding message string. -/
inductive Err where
  /-- epromimage.py:133 — `add_bytes` wrapping a `bincopy.Error` (overlap). -/
  | collision (addr : Int)
  /-- epromimage.py:143 — `_add_bytes_to_image`, address below the offset. -/
  | boundsLow (addr offset : Int)
  /-- epromimage.py:147 — `_add_bytes_to_image`, data runs past the EPROM end. -/
  | boundsHigh (len : Nat) (addr : Int) (size : Nat)
  /-- epromimage.py:173 / :347 — unknown file type. -/
  | unknownFileType (filename : String)
  /-- epromimage.py:175 — `readfile` re-raising a `bincopy.Error` as `Error`. -/
  | formatError (msg : String)
  /-- a `bincopy.Error` escaping uncaught (possible in `scanfile`). -/
  | rawBincopy (msg : String)
  /-- host `OSError` from `open()`. -/
  | ioErr
  /-- host `IndexError` from `line[0]` on an empty first line. -/
  | indexErr
  /-- host `TypeError` from `None - 1` (`scanfile` on an empty store). -/
  | typeErr
deriving DecidableEq, Repr

/-- The Python class each error value is an instance of (what a `try/except`
clause can discriminate on). -/
def Err.pyClass : Err → PyClass
  | .collision _ => .moduleError
  | .boundsLow _ _ => .moduleError
  | .boundsHigh _ _ _ => .moduleError
  | .unknownFileType _ => .moduleError
  | .formatError _ => .moduleError
  | .rawBincopy _ => .bincopyError
  | .ioErr => .osError
  | .indexErr => .indexError
  | .typeErr => .typeError

/-! ## Segment store (`bincopy.BinFile.segments`) -/

/-- A stored byte run: absolute start address and its data bytes. -/
abbrev Seg := Int × List Nat

/-- One past the last address of a run: the interval covered is `[s.1, segEnd s)`. -/
def segEnd (s : Seg) : Int := s.1 + s.2.length

/-- Two runs overlap iff their covered intervals intersect. -/
def overlapb (s t : Seg) : Bool := decide (s.1 < segEnd t) && decide (t.1 < segEnd s)

/-- Insert a run into an address-sorted list, keeping it sorted ascending. -/
def insertRun (r : Seg) : List Seg → List Seg
  | [] => [r]
  | s :: rest => if r.1 < s.1 then r :: s :: rest else s :: insertRun r rest

/-- Modelled from the spec: `bincopy.BinFile.add_binary` — the external
library's segment-store insertion (§4.1 of the spec).  If any byte position of
`[addr, addr + data.length)` is already covered by a stored run the add fails
(bincopy raises `bincopy.Error`, before mutating the store); otherwise the run
is recorded and iteration stays sorted ascending by address.  The spec states
that coalescing of exactly-adjacent runs is a storage optimisation and not an
observable requirement, so the model keeps each run as added. -/
def add_binary (segs : List Seg) (addr : Int) (data : List Nat) : Except Unit (List Seg) :=
  if data.isEmpty then .ok segs
  else if segs.any (fun s => overlapb s (addr, data)) then .error ()
  else .ok (insertRun (addr, data) segs)

/-- Absolute address `x` holds a byte of some stored run. -/
def covers (segs : List Seg) (x : Int) : Prop := ∃ s ∈ segs, s.1 ≤ x ∧ x < segEnd s

/-- The range `[addr, addr + data.length)` is disjoint from the run `s`. -/
def disjointFrom (addr : Int) (data : List Nat) (s : Seg) : Prop :=
  segEnd s ≤ addr ∨ addr + data.length ≤ s.1

instance (addr : Int) (data : List Nat) (s : Seg) : Decidable (disjointFrom addr data s) := by
  unfold disjointFrom; infer_instance

/-- `bincopy.BinFile.minimum_address`: least covered address (`none` when empty). -/
def minimum_address : List Seg → Option Int
  | [] => none
  | s :: rest => some (rest.foldl (fun m t => min m t.1) s.1)

/-- `bincopy.BinFile.maximum_address`: one past the greatest covered address
(`none` when empty). -/
def maximum_address : List Seg → Option Int
  | [] => none
  | s :: rest => some (rest.foldl (fun m t => max m (segEnd t)) (segEnd s))

/-! ## The `EPROM` class -/

/-- The `EPROM` instance state: window parameters, the flattened fixed-size
buffer `image`, and the bincopy segment store `binfile`. -/
structure EPROM where
  offset : Int
  size : Nat
  image : List Nat
  binfile : List Seg
deriving DecidableEq, Repr

/-- `EPROM.__init__(size, offset)` (epromimage.py:78): the buffer is created
filled with the sentinel 0xFF, the store empty.  (The non-multiple-of-1024
warnings are prints, not state.) -/
def EPROM.init (size : Nat) (offset : Int := 0) : EPROM :=
  { offset := offset, size := size, image := List.replicate size 0xFF, binfile := [] }

/-- `EPROM.checksum` (epromimage.py:104): `sum(self.image) & 0xFFFF`. -/
def EPROM.checksum (e : EPROM) : Nat := e.image.sum &&& 0xFFFF

/-- `EPROM.chunks` (epromimage.py:108): each stored segment reported at its
window-relative address `addr - offset`. -/
def EPROM.chunks (e : EPROM) : List Seg := e.binfile.map (fun s => (s.1 - e.offset, s.2))

/-- Python slice assignment `img[start:end] = data` with `end = start + len(data)`
and `end ≤ len(img)`. -/
def setSlice (img : List Nat) (start : Nat) (data : List Nat) : List Nat :=
  img.take start ++ data ++ img.drop (start + data.length)

/-- `EPROM._add_bytes_to_image` (epromimage.py:136): bounds-check the absolute
address range against the window `[offset, offset + size)` and copy the bytes
into the buffer. -/
def EPROM.addBytesToImage (e : EPROM) (addr : Int) (data : List Nat) : Except Err EPROM :=
  if addr < e.offset then .error (.boundsLow addr e.offset)
  else if e.size < (addr - e.offset).toNat + data.length then
    .error (.boundsHigh data.length addr e.size)
  else .ok { e with image := setSlice e.image (addr - e.offset).toNat data }

/-- `EPROM.add_bytes` (epromimage.py:123): first `binfile.add_binary` (collision
check, re-raised as the module `Error` at :133), then `_add_bytes_to_image`.
When the second step raises, `self.binfile` has already been mutated, so the
state paired with the error carries the new segment. -/
def EPROM.add_bytes (e : EPROM) (addr : Int) (data : List Nat) : Except Err Unit × EPROM :=
  match add_binary e.binfile addr data with
  | .error _ => (.error (.collision addr), e)
  | .ok segs =>
    let e1 := { e with binfile := segs }
    match e1.addBytesToImage addr data with
    | .error err => (.error err, e1)
    | .ok e2 => (.ok (), e2)

/-! ## File-type sniffing (`_get_filetype`) -/

/-- The extension part of `os.path.splitext(filename)[1]` (epromimage.py:275):
the suffix of the basename from its last `.`, provided a non-dot character
precedes that dot within the basename (leading dots never start an extension). -/
def splitextExt (filename : String) : String :=
  let cs := filename.toList
  let base := (cs.reverse.takeWhile (fun c => c ≠ '/')).reverse
  let lead := base.takeWhile (fun c => c = '.')
  let rest := base.drop lead.length
  String.mk (fromLastDot rest)
where
  /-- suffix from the last `.` of the list, `[]` when there is none. -/
  fromLastDot : List Char → List Char
  | [] => []
  | c :: cs =>
    match fromLastDot cs with
    | [] => if c = '.' then c :: cs else []
    | e => e

/-- `file.readline()` on a file just opened: the content up to and including
the first newline (the whole content when it has no newline, `""` when empty). -/
def readline (content : String) : String :=
  let cs := content.toList
  let first := cs.takeWhile (fun c => c ≠ '\n')
  String.mk (if first.length < cs.length then first ++ ['\n'] else first)

/-- `_get_filetype` (epromimage.py:270).  The second argument is the content of
the named file, `none` when opening it would raise `OSError`.  Note the source
returns `None` for an unrecognized extension (after opening and reading the
file), and that for a `.hex` file whose first line is empty, `line[0]` raises
an uncaught host `IndexError`. -/
def _get_filetype (filename : String) (file : Option String) : Except Err (Option String) :=
  let ext := splitextExt filename
  if ext = ".s19" then .ok (some "srecord")
  else if ext = ".bin" then .ok (some "binary")
  else if ext = ".hex" then
    match file with
    | none => .error .ioErr
    | some content =>
      match (readline content).toList with
      | [] => .error .indexErr
      | c0 :: _ => if c0 = ':' then .ok (some "intelhex") else .ok (some "hex")
  else if ext = ".ihex" then .ok (some "intelhex")
  else
    match file with
    | none => .error .ioErr
    | some _ => .ok none

/-! ## Raw Hex import (`_import_hex`) -/

/-- The character class of the regex `[a-fA-F0-9]`. -/
def isHexDigit (c : Char) : Bool :=
  ('0' ≤ c && c ≤ '9') || ('a' ≤ c && c ≤ 'f') || ('A' ≤ c && c ≤ 'F')

/-- Value of one hex digit. -/
def hexVal (c : Char) : Nat :=
  if '0' ≤ c && c ≤ '9' then c.toNat - '0'.toNat
  else if 'a' ≤ c && c ≤ 'f' then c.toNat - 'a'.toNat + 10
  else if 'A' ≤ c && c ≤ 'F' then c.toNat - 'A'.toNat + 10
  else 0

/-- `re.findall(r'([a-fA-F0-9][a-fA-F0-9])', line)` followed by `int(num, 16)`
for each match (epromimage.py:314): leftmost non-overlapping pairs of ADJACENT
hex digits, each decoded to one byte. -/
def hexPairs : List Char → List Nat
  | a :: b :: rest =>
    if isHexDigit a && isHexDigit b then (16 * hexVal a + hexVal b) :: hexPairs rest
    else hexPairs (b :: rest)
  | _ => []

/-- Python `str.strip()` on a line, as characters: whitespace removed from
both ends. -/
def stripChars (l : List Char) : List Char :=
  ((l.dropWhile Char.isWhitespace).reverse.dropWhile Char.isWhitespace).reverse

/-- Split a character stream at newlines: the line structure that
`file.readlines()` hands to the per-line loop (the terminators themselves do
not matter because every line is stripped). -/
def splitNL : List Char → List (List Char)
  | [] => [[]]
  | c :: cs =>
    match splitNL cs with
    | [] => [[]]
    | l :: ls => if c = '\n' then [] :: l :: ls else (c :: l) :: ls

/-- The per-line loop of `_import_hex` (epromimage.py:310): strip each line,
skip blank lines and lines whose first character is `#`, decode the adjacent
hex-digit pairs of the rest, in order. -/
def importHexLines : List (List Char) → List Nat
  | [] => []
  | l :: rest =>
    match stripChars l with
    | [] => importHexLines rest
    | c0 :: cs =>
      if c0 = '#' then importHexLines rest
      else hexPairs (c0 :: cs) ++ importHexLines rest

/-- `_import_hex` (epromimage.py:302) over the content of the file. -/
def _import_hex (content : String) : List Nat :=
  importHexLines (splitNL content.toList)

/-- Modelled from the spec: the claim's reading of Raw Hex decoding — comment
lines beginning with `#` are dropped, then ALL remaining non-hex-digit
characters are ignored and the surviving hex digits are paired in order of
appearance, each pair one byte.  Stated from the spec's words, for comparison
with the source's `_import_hex`. -/
def specRawHexDecode (content : String) : List Nat :=
  pairUp ((((splitNL content.toList).filter
    (fun l => !((stripChars l).headD ' ' = '#' : Bool))).flatten).filter isHexDigit)
where
  /-- consecutive pairing of the retained digits. -/
  pairUp : List Char → List Nat
  | a :: b :: rest => (16 * hexVal a + hexVal b) :: pairUp rest
  | _ => []

/-! ## `readfile` and `scanfile` -/

/-- An external `bincopy` file parser (`add_srec_file`, `add_ihex_file`,
`add_binary_file`): from the file's content and the segments already stored,
the new segment list, or a `bincopy.Error` message. -/
abbrev FileParser := String → List Seg → Except String (List Seg)

/-- Step 3 of `readfile` (epromimage.py:178): every segment of the store is
projected into the fixed-size buffer in turn. -/
def EPROM.projectSegs : EPROM → List Seg → Except Err EPROM
  | e, [] => .ok e
  | e, s :: rest =>
    match e.addBytesToImage s.1 s.2 with
    | .error err => .error err
    | .ok e1 => e1.projectSegs rest

/-- `EPROM.readfile` (epromimage.py:150).  The three bincopy file parsers are
parameters (external library); `file` is the content of `filename`, `none`
when unreadable.  Returns the file-type tag together with the updated state. -/
def EPROM.readfile (parseSrec parseIhex parseBin : FileParser) (e : EPROM)
    (filename : String) (file : Option String) (addr : Int) :
    Except Err (String × EPROM) :=
  match _get_filetype filename file with
  | .error err => .error err
  | .ok oft =>
    let step2 : Except Err (List Seg) :=
      if oft = some "srecord" then
        match file with
        | none => .error .ioErr
        | some content =>
          match parseSrec content e.binfile with
          | .ok segs => .ok segs
          | .error msg => .error (.formatError msg)
      else if oft = some "binary" then
        match file with
        | none => .error .ioErr
        | some content =>
          match parseBin content e.binfile with
          | .ok segs => .ok segs
          | .error msg => .error (.formatError msg)
      else if oft = some "intelhex" then
        match file with
        | none => .error .ioErr
        | some content =>
          match parseIhex content e.binfile with
          | .ok segs => .ok segs
          | .error msg => .error (.formatError msg)
      else if oft = some "hex" then
        match file with
        | none => .error .ioErr
        | some content =>
          match add_binary e.binfile addr (_import_hex content) with
          | .ok segs => .ok segs
          | .error _ => .error (.formatError "overlapping segments")
      else .error (.unknownFileType filename)
    match step2 with
    | .error err => .error err
    | .ok segs =>
      match EPROM.projectSegs { e with binfile := segs } segs with
      | .error err => .error err
      | .ok e2 =>
        match oft with
        | some tag => .ok (tag, e2)
        | none => .error (.unknownFileType filename)

/-- `scanfile` (epromimage.py:322).  Parses into a fresh `BinFile` and reports
`(ftype, astart, aend, alen, chunks, hexdump)`; the bincopy parsers and the
bincopy hex-dump renderer are parameters (external library).  Note the source
computes `alen = aend - astart + 1` from the extreme addresses, and that a
parse error here is an uncaught `bincopy.Error`. -/
def scanfile (parseSrec parseIhex parseBin : FileParser) (hexdump : List Seg → String)
    (filename : String) (file : Option String) :
    Except Err (String × Int × Int × Int × List (Int × Int × Nat) × String) :=
  match _get_filetype filename file with
  | .error err => .error err
  | .ok oft =>
    let parsed : Except Err (List Seg) :=
      if oft = some "srecord" then
        match file with
        | none => .error .ioErr
        | some content =>
          match parseSrec content [] with
          | .ok segs => .ok segs
          | .error msg => .error (.rawBincopy msg)
      else if oft = some "binary" then
        match file with
        | none => .error .ioErr
        | some content =>
          match parseBin content [] with
          | .ok segs => .ok segs
          | .error msg => .error (.rawBincopy msg)
      else if oft = some "intelhex" then
        match file with
        | none => .error .ioErr
        | some content =>
          match parseIhex content [] with
          | .ok segs => .ok segs
          | .error msg => .error (.rawBincopy msg)
      else if oft = some "hex" then
        match file with
        | none => .error .ioErr
        | some content =>
          match add_binary [] 0 (_import_hex content) with
          | .ok segs => .ok segs
          | .error _ => .error (.rawBincopy "overlapping segments")
      else .error (.unknownFileType filename)
    match parsed with
    | .error err => .error err
    | .ok segs =>
      let chunkList := segs.map (fun s => (s.1, segEnd s - 1, s.2.length))
      match minimum_address segs, maximum_address segs, oft with
      | some astart, some amax, some tag =>
        let aend := amax - 1
        let alen := aend - astart + 1
        .ok (tag, astart, aend, alen, chunkList, hexdump segs)
      | _, _, _ => .error .typeErr

/-! ## Helper lemmas about the segment store -/

theorem mem_insertRun_self (r : Seg) (l : List Seg) : r ∈ insertRun r l := by
  induction l with
  | nil => simp [insertRun]
  | cons s rest ih =>
    unfold insertRun
    split
    · exact List.mem_cons_self _ _
    · exact List.mem_cons_of_mem _ ih

theorem mem_of_mem_insertRun {r s : Seg} {l : List Seg} (h : s ∈ insertRun r l) :
    s = r ∨ s ∈ l := by
  induction l with
  | nil => simpa [insertRun] using h
  | cons t rest ih =>
    unfold insertRun at h
    split at h
    · rw [List.mem_cons] at h
      rcases h with h | h
      · exact .inl h
      · exact .inr h
    · rw [List.mem_cons] at h
      rcases h with h | h
      · exact .inr (List.mem_cons.mpr (.inl h))
      · rcases ih h with h2 | h2
        · exact .inl h2
        · exact .inr (List.mem_cons.mpr (.inr h2))

theorem add_binary_ok_cases {segs : List Seg} {addr : Int} {data : List Nat} {segs' : List Seg}
    (h : add_binary segs addr data = .ok segs') :
    (data = [] ∧ segs' = segs) ∨ (data ≠ [] ∧ segs' = insertRun (addr, data) segs) := by
  unfold add_binary at h
  by_cases hd : data.isEmpty = true
  · rw [if_pos hd] at h
    cases h
    exact .inl ⟨List.isEmpty_iff.mp hd, rfl⟩
  · rw [if_neg hd] at h
    by_cases hov : segs.any (fun s => overlapb s (addr, data)) = true
    · rw [if_pos hov] at h
      cases h
    · rw [if_neg hov] at h
      cases h
      exact .inr ⟨fun hnil => hd (by simp [hnil]), rfl⟩

theorem any_overlap_of_covers {segs : List Seg} {x addr2 : Int} {data2 : List Nat}
    (hc : covers segs x) (h1 : addr2 ≤ x) (h2 : x < addr2 + data2.length) :
    segs.any (fun s => overlapb s (addr2, data2)) = true := by
  obtain ⟨s, hs, hle, hlt⟩ := hc
  refine List.any_eq_true.mpr ⟨s, hs, ?_⟩
  unfold overlapb
  unfold segEnd at *
  simp only [Bool.and_eq_true, decide_eq_true_eq]
  omega

theorem no_overlap_of_disjoint {segs : List Seg} {addr : Int} {data : List Nat}
    (h : ∀ s ∈ segs, disjointFrom addr data s) :
    segs.any (fun s => overlapb s (addr, data)) = false := by
  rw [List.any_eq_false]
  intro s hs
  have hd := h s hs
  unfold disjointFrom at hd
  unfold overlapb
  unfold segEnd at *
  simp only [Bool.and_eq_true, decide_eq_true_eq, not_and]
  omega

/-! ## Helper lemmas about the image buffer -/

theorem setSlice_length {img data : List Nat} {start : Nat}
    (h : start + data.length ≤ img.length) :
    (setSlice img start data).length = img.length := by
  unfold setSlice
  simp only [List.length_append, List.length_take, List.length_drop]
  omega

theorem setSlice_getD_inside {img data : List Nat} {start : Nat}
    (h : start + data.length ≤ img.length) (i : Nat) (hi : i < data.length) :
    (setSlice img start data).getD (start + i) 0 = data.getD i 0 := by
  unfold setSlice
  have hts : (img.take start).length = start := by
    simp only [List.length_take]; omega
  rw [List.getD_eq_getElem?_getD, List.getD_eq_getElem?_getD, List.append_assoc]
  have h1 : (img.take start ++ (data ++ img.drop (start + data.length)))[start + i]? =
      (data ++ img.drop (start + data.length))[start + i - (img.take start).length]? :=
    List.getElem?_append_right (by rw [hts]; omega)
  rw [h1, hts]
  have h2 : start + i - start = i := by omega
  rw [h2, List.getElem?_append_left hi]

theorem setSlice_getD_outside {img data : List Nat} {start : Nat}
    (h : start + data.length ≤ img.length) (i : Nat)
    (hout : i < start ∨ start + data.length ≤ i) :
    (setSlice img start data).getD i 0 = img.getD i 0 := by
  unfold setSlice
  have hts : (img.take start).length = start := by
    simp only [List.length_take]; omega
  rw [List.getD_eq_getElem?_getD, List.getD_eq_getElem?_getD, List.append_assoc]
  rcases hout with hlt | hge
  · rw [List.getElem?_append_left (by rw [hts]; omega), List.getElem?_take_of_lt hlt]
  · have h1 : (img.take start ++ (data ++ img.drop (start + data.length)))[i]? =
        (data ++ img.drop (start + data.length))[i - (img.take start).length]? :=
      List.getElem?_append_right (by rw [hts]; omega)
    rw [h1, hts]
    have h3 : (data ++ img.drop (start + data.length))[i - start]? =
        (img.drop (start + data.length))[i - start - data.length]? :=
      List.getElem?_append_right (by omega)
    rw [h3, List.getElem?_drop]
    have h4 : start + data.length + (i - start - data.length) = i := by omega
    rw [h4]

/-! ## Helper lemmas about `_add_bytes_to_image` and `add_bytes` -/

theorem addBytesToImage_ok {e : EPROM} {addr : Int} {data : List Nat} {e2 : EPROM}
    (h : e.addBytesToImage addr data = .ok e2) :
    e.offset ≤ addr ∧ (addr - e.offset).toNat + data.length ≤ e.size ∧
      e2 = { e with image := setSlice e.image (addr - e.offset).toNat data } := by
  unfold EPROM.addBytesToImage at h
  split at h
  · cases h
  · split at h
    · cases h
    · cases h
      refine ⟨by omega, by omega, rfl⟩

theorem addBytesToImage_ok_of_bounds {e : EPROM} {addr : Int} {data : List Nat}
    (h1 : e.offset ≤ addr) (h2 : (addr - e.offset).toNat + data.length ≤ e.size) :
    e.addBytesToImage addr data =
      .ok { e with image := setSlice e.image (addr - e.offset).toNat data } := by
  unfold EPROM.addBytesToImage
  rw [if_neg (by omega), if_neg (by omega)]

/-- Anatomy of a successful `add_bytes` call. -/
theorem add_bytes_ok {e : EPROM} {addr : Int} {data : List Nat} {e' : EPROM}
    (h : e.add_bytes addr data = (.ok (), e')) :
    add_binary e.binfile addr data = .ok e'.binfile ∧
      e'.offset = e.offset ∧ e'.size = e.size ∧
      e.offset ≤ addr ∧ (addr - e.offset).toNat + data.length ≤ e.size ∧
      e'.image = setSlice e.image (addr - e.offset).toNat data := by
  unfold EPROM.add_bytes at h
  split at h
  · cases h
  · rename_i segs hab
    dsimp only at h
    split at h
    · cases h
    · rename_i e2 him
      obtain ⟨hoff, hsz, he2⟩ := addBytesToImage_ok him
      cases h
      subst he2
      exact ⟨hab, rfl, rfl, hoff, hsz, rfl⟩

/-! ## C4 — the 16-byte scenario -/

/-- C4 counterexample: in the 16-byte scenario the checksum the code computes is
`0xFF*14 + 0x61 + 0x62 = 0xEB5`, not the claimed `0xF6B` (an arithmetic slip in
the spec: `0xF6B = 3947` while `0xFF*14 + 0x61 + 0x62 = 3765 = 0xEB5`). -/
theorem sixteen_byte_checksum_not_0xF6B :
    ((EPROM.init 16 0).add_bytes 6 [0x61, 0x62]).1 = .ok () ∧
    ((EPROM.init 16 0).add_bytes 6 [0x61, 0x62]).2.checksum ≠ 0xF6B := by
  constructor
  · rfl
  · decide

/-- C4 (amended): for a 16-byte image with offset 0, after adding the 2 bytes
0x61 0x62 at address 6, `checksum()` equals `0xFF*14 + 0x61 + 0x62 = 0xEB5`,
and `chunks()` yields exactly one chunk `(6, [0x61, 0x62])`. -/
theorem sixteen_byte_scenario :
    ((EPROM.init 16 0).add_bytes 6 [0x61, 0x62]).1 = .ok () ∧
    ((EPROM.init 16 0).add_bytes 6 [0x61, 0x62]).2.checksum = 0xFF * 14 + 0x61 + 0x62 ∧
    0xFF * 14 + 0x61 + 0x62 = 0xEB5 ∧
    ((EPROM.init 16 0).add_bytes 6 [0x61, 0x62]).2.chunks = [(6, [0x61, 0x62])] := by
  refine ⟨rfl, by decide, by decide, by decide⟩

/-! ## C5 — two disjoint adds, gaps preserved -/

/-- The state of the 512-byte two-chunk scenario of the self test
(epromimage.py:426): `add_bytes(0, b'ab')` then `add_bytes(0x20, b'xyz')`. -/
def twoChunkDemo : EPROM :=
  (((EPROM.init 512 0).add_bytes 0 [0x61, 0x62]).2.add_bytes 0x20 [0x78, 0x79, 0x7A]).2

/-- C5: in a 512-byte image with offset 0, two disjoint adds ("ab" at 0, "xyz"
at 0x20) both succeed; `chunks()` yields exactly the two chunks in ascending
order at relative addresses 0 and 0x20; every buffer byte strictly between the
two runs (indices 2..0x1F) is still the 0xFF sentinel; no chunk covers any
relative address of that gap; and in general every chunk is a stored run
reported at its absolute address minus the image offset. -/
theorem two_disjoint_adds_chunks :
    ((EPROM.init 512 0).add_bytes 0 [0x61, 0x62]).1 = .ok () ∧
    (((EPROM.init 512 0).add_bytes 0 [0x61, 0x62]).2.add_bytes 0x20 [0x78, 0x79, 0x7A]).1
      = .ok () ∧
    twoChunkDemo.chunks = [(0, [0x61, 0x62]), (0x20, [0x78, 0x79, 0x7A])] ∧
    (∀ i : Nat, i < 0x20 → 2 ≤ i → twoChunkDemo.image.getD i 0 = 0xFF) ∧
    (∀ x : Int, 2 ≤ x → x < 0x20 → ¬ covers twoChunkDemo.chunks x) ∧
    (∀ e : EPROM, e.chunks = e.binfile.map (fun s => (s.1 - e.offset, s.2))) := by
  refine ⟨rfl, by decide, by decide, by decide, ?_, fun e => rfl⟩
  intro x h1 h2 hc
  obtain ⟨s, hs, hle, hlt⟩ := hc
  have hchunks : twoChunkDemo.chunks = [(0, [0x61, 0x62]), (0x20, [0x78, 0x79, 0x7A])] := by
    decide
  rw [hchunks] at hs
  unfold segEnd at hlt
  rcases List.mem_cons.mp hs with h | h
  · subst h; simp at hle hlt; omega
  · rcases List.mem_cons.mp h with h | h
    · subst h; simp at hle hlt; omega
    · simp at h

/-- C5 witness: the gap byte at buffer index 5 is still the sentinel, and the
relative gap address 5 is covered by no chunk. -/
theorem two_disjoint_adds_chunks_witness :
    twoChunkDemo.image.getD 5 0 = 0xFF ∧ ¬ covers twoChunkDemo.chunks 5 :=
  ⟨two_disjoint_adds_chunks.2.2.2.1 5 (by decide) (by decide),
   two_disjoint_adds_chunks.2.2.2.2.1 5 (by decide) (by decide)⟩

/-! ## C8 — error taxonomy -/

/-- C8 counterexample: the collision condition (epromimage.py:133) and the
bounds conditions (epromimage.py:143, :147) raise instances of the one module
exception class `Error`, so a Python `except` clause cannot catch them
distinctly — they are different error values but not distinctly catchable
kinds. -/
theorem error_kinds_share_class :
    (Err.collision 6).pyClass = (Err.boundsLow 0 1024).pyClass ∧
    (Err.collision 6).pyClass = (Err.boundsHigh 2 20 16).pyClass ∧
    (Err.collision 6).pyClass = (Err.unknownFileType "a.txt").pyClass ∧
    Err.collision 6 ≠ Err.boundsLow 0 1024 := by
  decide

/-- C8 (amended): every error condition the module itself raises — collision,
both bounds violations, unknown file type, and wrapped bincopy format errors —
is an instance of the single exception class `Error`; the error values are
distinct (distinguishable by their messages) but share that one catchable
class; no `RangeError` raise site exists; and I/O failures propagate as the
host `OSError`, a class distinct from `Error`, so they are not conflated with
the module's format errors. -/
theorem error_taxonomy :
    (∀ a : Int, (Err.collision a).pyClass = PyClass.moduleError) ∧
    (∀ a o : Int, (Err.boundsLow a o).pyClass = PyClass.moduleError) ∧
    (∀ (l : Nat) (a : Int) (s : Nat), (Err.boundsHigh l a s).pyClass = PyClass.moduleError) ∧
    (∀ f : String, (Err.unknownFileType f).pyClass = PyClass.moduleError) ∧
    (∀ m : String, (Err.formatError m).pyClass = PyClass.moduleError) ∧
    Err.ioErr.pyClass = PyClass.osError ∧
    PyClass.osError ≠ PyClass.moduleError ∧
    (∀ (a o : Int) (m : String) (l s : Nat) (f : String),
      Err.collision a ≠ Err.boundsLow a o ∧ Err.collision a ≠ Err.boundsHigh l a s ∧
      Err.collision a ≠ Err.formatError m ∧ Err.boundsLow a o ≠ Err.unknownFileType f) := by
  refine ⟨fun _ => rfl, fun _ _ => rfl, fun _ _ _ => rfl, fun _ => rfl, fun _ => rfl, rfl,
    by decide, ?_⟩
  intro a o m l s f
  refine ⟨by simp, by simp, by simp, by simp⟩

/-! ## More `add_bytes` helper lemmas (for C1 and C10) -/

theorem add_binary_error_of_overlap {segs : List Seg} {addr : Int} {data : List Nat}
    (hne : data ≠ []) (hov : segs.any (fun s => overlapb s (addr, data)) = true) :
    add_binary segs addr data = .error () := by
  unfold add_binary
  rw [if_neg (by simp [hne]), if_pos hov]

theorem add_binary_ok_of_disjoint {segs : List Seg} {addr : Int} {data : List Nat}
    (hne : data ≠ []) (hdisj : ∀ s ∈ segs, disjointFrom addr data s) :
    add_binary segs addr data = .ok (insertRun (addr, data) segs) := by
  unfold add_binary
  rw [if_neg (by simp [hne]), if_neg (by simp [no_overlap_of_disjoint hdisj])]

theorem add_bytes_of_add_binary_error {e : EPROM} {addr : Int} {data : List Nat}
    (h : add_binary e.binfile addr data = .error ()) :
    e.add_bytes addr data = (.error (.collision addr), e) := by
  unfold EPROM.add_bytes
  rw [h]

theorem add_binary_ok_any_of_disjoint {segs : List Seg} {addr : Int} {data : List Nat}
    (hdisj : ∀ s ∈ segs, disjointFrom addr data s) :
    ∃ segs', add_binary segs addr data = .ok segs' := by
  by_cases h : data.isEmpty = true
  · exact ⟨segs, by unfold add_binary; rw [if_pos h]⟩
  · exact ⟨_, add_binary_ok_of_disjoint (by simpa using h) hdisj⟩

/-! ## C1 — collision detection -/

/-- C1 counterexample: the claim's unconditional "adding at a disjoint address
must succeed" fails on the code — an add whose range is disjoint from every
stored run but extends past the window still fails (with the bounds error from
`_add_bytes_to_image`): a 16-byte image with a run at 0 rejects a disjoint
1-byte add at address 100. -/
theorem disjoint_add_out_of_window_fails :
    (((EPROM.init 16 0).add_bytes 0 [1, 2]).1 = .ok ()) ∧
    ((((EPROM.init 16 0).add_bytes 0 [1, 2]).2.binfile.all
      (fun s => decide (disjointFrom 100 [9] s))) = true) ∧
    ((((EPROM.init 16 0).add_bytes 0 [1, 2]).2.add_bytes 100 [9]).1
      = .error (.boundsHigh 1 100 16)) := by
  decide

/-- C1 (amended): after a successful `add_bytes` of `data` at address `A`,
(a) a second `add_bytes` at any address in `[A, A + len(data))` with nonempty
data fails with the collision error (epromimage.py:133) and leaves the state
unchanged, and (b) an `add_bytes` whose address range is disjoint from every
stored run AND lies within the window `[offset, offset + size)` succeeds and
leaves the buffer bytes of the first run unchanged.  (The claim's disjoint
case is unconditioned on the window; the code also requires the new range to
fit the window, as the counterexample shows.) -/
theorem add_bytes_collision_and_disjoint (e : EPROM) (A : Int) (data : List Nat) (e' : EPROM)
    (hlen : e.image.length = e.size)
    (hfirst : e.add_bytes A data = (.ok (), e')) :
    (∀ (A2 : Int) (data2 : List Nat), data2 ≠ [] → A ≤ A2 → A2 < A + data.length →
      e'.add_bytes A2 data2 = (.error (.collision A2), e')) ∧
    (∀ (A2 : Int) (data2 : List Nat),
      (∀ s ∈ e'.binfile, disjointFrom A2 data2 s) →
      e.offset ≤ A2 → (A2 - e.offset).toNat + data2.length ≤ e.size →
      ∃ e2 : EPROM, e'.add_bytes A2 data2 = (.ok (), e2) ∧
        ∀ i : Nat, (A - e.offset).toNat ≤ i → i < (A - e.offset).toNat + data.length →
          e2.image.getD i 0 = e'.image.getD i 0) := by
  obtain ⟨hab, hoffeq, hszeq, hoffA, hszA, himg⟩ := add_bytes_ok hfirst
  have hlen' : e'.image.length = e.size := by
    rw [himg, setSlice_length (by omega)]
    exact hlen
  constructor
  · -- (a) collision on any address inside the first run
    intro A2 data2 hne h1 h2
    have hdne : data ≠ [] := by
      intro hd
      subst hd
      simp at h2
      omega
    rcases add_binary_ok_cases hab with ⟨hd, _⟩ | ⟨_, hbin⟩
    · exact absurd hd hdne
    have hcov : covers e'.binfile A2 := by
      refine ⟨(A, data), ?_, by simpa using h1, ?_⟩
      · rw [hbin]
        exact mem_insertRun_self _ _
      · unfold segEnd
        simpa using h2
    have hlpos : 0 < data2.length := List.length_pos.mpr hne
    exact add_bytes_of_add_binary_error
      (add_binary_error_of_overlap hne
        (any_overlap_of_covers hcov le_rfl (by omega)))
  · -- (b) disjoint within-window add succeeds, first run's buffer bytes unchanged
    intro A2 data2 hdisj hoff2 hsz2
    obtain ⟨segs', hbins⟩ := add_binary_ok_any_of_disjoint hdisj
    refine ⟨{ e' with binfile := segs'
                      image := setSlice e'.image (A2 - e'.offset).toNat data2 },
      ?_, fun i hi1 hi2 => ?_⟩
    · unfold EPROM.add_bytes
      rw [hbins]
      dsimp only
      rw [addBytesToImage_ok_of_bounds (e := { e' with binfile := segs' })
        (show e'.offset ≤ A2 by omega)
        (show (A2 - e'.offset).toNat + data2.length ≤ e'.size by omega)]
    · -- the second write lands outside the first run's index range
      dsimp only
      have hdat : data ≠ [] := by
        intro hd
        subst hd
        simp at hi2
        omega
      rcases add_binary_ok_cases hab with ⟨hd, _⟩ | ⟨_, hbin⟩
      · exact absurd hd hdat
      have hmem : (A, data) ∈ e'.binfile := by
        rw [hbin]
        exact mem_insertRun_self _ _
      have hdj := hdisj (A, data) hmem
      unfold disjointFrom segEnd at hdj
      dsimp only at hdj
      have hA : ((A - e.offset).toNat : Int) = A - e.offset := Int.toNat_of_nonneg (by omega)
      have hA2 : ((A2 - e'.offset).toNat : Int) = A2 - e'.offset := Int.toNat_of_nonneg (by omega)
      refine setSlice_getD_outside (by omega) i ?_
      rcases hdj with hdj | hdj
      · left
        omega
      · right
        omega

/-- C1 witness: in a 4-byte image with a run `[1]` at address 0, re-adding at
address 0 collides, and a disjoint in-window add at address 2 succeeds without
touching the first run's byte. -/
theorem add_bytes_collision_and_disjoint_witness :
    (((EPROM.init 4 0).add_bytes 0 [1]).2.add_bytes 0 [2]
      = (.error (.collision 0), ((EPROM.init 4 0).add_bytes 0 [1]).2)) ∧
    (∃ e2 : EPROM, ((EPROM.init 4 0).add_bytes 0 [1]).2.add_bytes 2 [5] = (.ok (), e2) ∧
      ∀ i : Nat, ((0 : Int) - 0).toNat ≤ i → i < ((0 : Int) - 0).toNat + 1 →
        e2.image.getD i 0 = (((EPROM.init 4 0).add_bytes 0 [1]).2).image.getD i 0) := by
  have h := add_bytes_collision_and_disjoint (EPROM.init 4 0) 0 [1]
    ((EPROM.init 4 0).add_bytes 0 [1]).2 (by decide) (by decide)
  exact ⟨h.1 0 [2] (by decide) (by decide) (by decide),
    h.2 2 [5] (by decide) (by decide) (by decide)⟩

/-! ## C10 — add_bytes is not atomic on bounds failure -/

/-- C10: for nonempty data disjoint from every stored run but out of the
window (starting before the offset or running past `offset + size`),
`add_bytes` raises the bounds error only AFTER `binfile.add_binary` has
recorded the run, so the failed call leaves the run in the segment store —
`chunks()` afterwards reports the out-of-window run — while the fixed-size
buffer is unchanged. -/
theorem add_bytes_not_atomic_on_bounds (e : EPROM) (addr : Int) (data : List Nat)
    (hne : data ≠ []) (hdisj : ∀ s ∈ e.binfile, disjointFrom addr data s)
    (hout : addr < e.offset ∨ e.size < (addr - e.offset).toNat + data.length) :
    ((e.add_bytes addr data).1 = .error (.boundsLow addr e.offset) ∨
     (e.add_bytes addr data).1 = .error (.boundsHigh data.length addr e.size)) ∧
    (e.add_bytes addr data).2.binfile = insertRun (addr, data) e.binfile ∧
    (e.add_bytes addr data).2.image = e.image ∧
    (addr - e.offset, data) ∈ (e.add_bytes addr data).2.chunks := by
  have hbins : add_binary e.binfile addr data = .ok (insertRun (addr, data) e.binfile) :=
    add_binary_ok_of_disjoint hne hdisj
  have hrun : e.add_bytes addr data =
      (Except.error (if addr < e.offset then Err.boundsLow addr e.offset
        else Err.boundsHigh data.length addr e.size),
       { e with binfile := insertRun (addr, data) e.binfile }) := by
    unfold EPROM.add_bytes
    rw [hbins]
    dsimp only
    by_cases hcase : addr < e.offset
    · rw [if_pos hcase]
      unfold EPROM.addBytesToImage
      rw [if_pos (by dsimp only; exact hcase)]
    · rw [if_neg hcase]
      have hhigh : e.size < (addr - e.offset).toNat + data.length := by
        rcases hout with h | h
        · exact absurd h hcase
        · exact h
      unfold EPROM.addBytesToImage
      rw [if_neg (by dsimp only; exact hcase), if_pos (by dsimp only; exact hhigh)]
  rw [hrun]
  refine ⟨?_, rfl, rfl, ?_⟩
  · by_cases hcase : addr < e.offset
    · left
      rw [if_pos hcase]
    · right
      rw [if_neg hcase]
  · unfold EPROM.chunks
    exact List.mem_map.mpr ⟨(addr, data), mem_insertRun_self _ _, rfl⟩

/-- C10 witness: the 16-byte image rejects `[7, 8]` at address 20 with the
bounds error, yet the run is stored and reported by `chunks()` while the
buffer is untouched. -/
theorem add_bytes_not_atomic_on_bounds_witness :
    ((((EPROM.init 16 0).add_bytes 20 [7, 8]).1 = .error (.boundsLow 20 0) ∨
      (((EPROM.init 16 0).add_bytes 20 [7, 8]).1 = .error (.boundsHigh 2 20 16))) ∧
     ((EPROM.init 16 0).add_bytes 20 [7, 8]).2.binfile
       = insertRun (20, [7, 8]) (EPROM.init 16 0).binfile ∧
     ((EPROM.init 16 0).add_bytes 20 [7, 8]).2.image = (EPROM.init 16 0).image ∧
     ((20 : Int) - 0, [7, 8]) ∈ ((EPROM.init 16 0).add_bytes 20 [7, 8]).2.chunks) :=
  add_bytes_not_atomic_on_bounds (EPROM.init 16 0) 20 [7, 8]
    (by decide) (by decide) (by decide)

/-! ## C2 — window bounds checks of `_add_bytes_to_image` -/

/-- C2: for any image, projecting a run starting at absolute address
`offset - 1` fails with the low-bounds error; a run inside the window that
ends exactly at `offset + size` succeeds, its bytes copied to the
window-relative buffer positions; and a run that would end at
`offset + size + 1` fails with the high-bounds error. -/
theorem addBytesToImage_window_bounds (e : EPROM) :
    (∀ data : List Nat,
      e.addBytesToImage (e.offset - 1) data = .error (.boundsLow (e.offset - 1) e.offset)) ∧
    (∀ (addr : Int) (data : List Nat), e.image.length = e.size → e.offset ≤ addr →
      addr + data.length = e.offset + e.size →
      ∃ e2 : EPROM, e.addBytesToImage addr data = .ok e2 ∧
        ∀ i : Nat, i < data.length →
          e2.image.getD ((addr - e.offset).toNat + i) 0 = data.getD i 0) ∧
    (∀ (addr : Int) (data : List Nat), e.offset ≤ addr →
      addr + data.length = e.offset + e.size + 1 →
      e.addBytesToImage addr data = .error (.boundsHigh data.length addr e.size)) := by
  refine ⟨fun data => ?_, fun addr data hlen hoff hend => ?_, fun addr data hoff hend => ?_⟩
  · unfold EPROM.addBytesToImage
    rw [if_pos (by omega)]
  · refine ⟨{ e with image := setSlice e.image (addr - e.offset).toNat data },
      addBytesToImage_ok_of_bounds hoff (by omega), fun i hi => ?_⟩
    exact setSlice_getD_inside (by omega) i hi
  · unfold EPROM.addBytesToImage
    rw [if_neg (by omega), if_pos (by omega)]

/-- C2 witness: in an 8-byte window at offset 1024, address 1023 is rejected, a
2-byte run at 1030 (ending exactly at 1032 = offset + size) is accepted and
copied to buffer positions 6..7, and a 3-byte run at 1030 (ending at 1033) is
rejected. -/
theorem addBytesToImage_window_bounds_witness :
    ((EPROM.init 8 1024).addBytesToImage (1024 - 1) [5]
      = .error (.boundsLow (1024 - 1) 1024)) ∧
    (∃ e2 : EPROM, (EPROM.init 8 1024).addBytesToImage 1030 [7, 8] = .ok e2 ∧
      ∀ i : Nat, i < ([7, 8] : List Nat).length →
        e2.image.getD (((1030 : Int) - 1024).toNat + i) 0 = ([7, 8] : List Nat).getD i 0) ∧
    ((EPROM.init 8 1024).addBytesToImage 1030 [7, 8, 9]
      = .error (.boundsHigh 3 1030 8)) :=
  ⟨(addBytesToImage_window_bounds (EPROM.init 8 1024)).1 [5],
   (addBytesToImage_window_bounds (EPROM.init 8 1024)).2.1 1030 [7, 8]
     (by decide) (by decide) (by decide),
   (addBytesToImage_window_bounds (EPROM.init 8 1024)).2.2 1030 [7, 8, 9]
     (by decide) (by decide)⟩

/-! ## C3 — the 16-bit checksum -/

theorem sum_set_single {img : List Nat} {i : Nat} (hi : i < img.length) (v : Nat) :
    (setSlice img i [v]).sum + img.getD i 0 = img.sum + v := by
  unfold setSlice
  have hsplit : img.sum = (img.take i).sum + (img.drop i).sum :=
    (img.sum_take_add_sum_drop i).symm
  have hdrop : img.drop i = img[i] :: img.drop (i + 1) := List.drop_eq_getElem_cons hi
  have hget : img.getD i 0 = img[i] := by
    rw [List.getD_eq_getElem?_getD, List.getElem?_eq_getElem hi]
    rfl
  rw [hget]
  conv_rhs => rw [hsplit, hdrop]
  simp only [List.sum_append, List.sum_cons, List.sum_nil, List.length_cons,
    List.length_nil, Nat.zero_add]
  omega

/-- C3: `checksum()` is the unsigned sum of all buffer bytes truncated to 16
bits (`sum mod 0x10000`); a fresh image of capacity C checksums to
`(0xFF * C) mod 0x10000`; and writing one byte `v` over a buffer position
(via `_add_bytes_to_image` with a 1-byte run) changes the checksum by the
signed difference between the new and the old value, mod 0x10000. -/
theorem checksum_spec :
    (∀ e : EPROM, e.checksum = e.image.sum % 0x10000) ∧
    (∀ (C : Nat) (off : Int), (EPROM.init C off).checksum = (0xFF * C) % 0x10000) ∧
    (∀ (e : EPROM) (addr : Int) (v : Nat), e.image.length = e.size → e.offset ≤ addr →
      (addr - e.offset).toNat < e.size →
      ∃ e2 : EPROM, e.addBytesToImage addr [v] = .ok e2 ∧
        (e2.checksum : Int) =
          ((e.checksum : Int) + v - e.image.getD (addr - e.offset).toNat 0) % 0x10000) := by
  have hmask : ∀ n : Nat, n &&& 0xFFFF = n % 0x10000 := by
    intro n
    have h := Nat.and_pow_two_sub_one_eq_mod n 16
    norm_num at h
    exact h
  refine ⟨fun e => hmask _, fun C off => ?_, fun e addr v hlen hoff hi => ?_⟩
  · unfold EPROM.checksum EPROM.init
    rw [hmask]
    simp [List.sum_replicate, Nat.smul_one_eq_cast, Nat.mul_comm]
  · refine ⟨{ e with image := setSlice e.image (addr - e.offset).toNat [v] },
      addBytesToImage_ok_of_bounds hoff (by simpa using hi), ?_⟩
    unfold EPROM.checksum
    dsimp only
    rw [hmask, hmask]
    have hlt : (addr - e.offset).toNat < e.image.length := by omega
    have hsum := sum_set_single hlt v
    have hold : e.image.getD (addr - e.offset).toNat 0 ≤ e.image.sum := by
      have hmem : e.image[(addr - e.offset).toNat] ∈ e.image := List.getElem_mem hlt
      have hg : e.image.getD (addr - e.offset).toNat 0 = e.image[(addr - e.offset).toNat] := by
        rw [List.getD_eq_getElem?_getD, List.getElem?_eq_getElem hlt]
        rfl
      rw [hg]
      exact List.single_le_sum (fun _ _ => Nat.zero_le _) _ hmem

    omega

/-- C3 witness: writing byte 0x12 over buffer index 2 of a fresh 4-byte image
shifts the checksum by `0x12 - 0xFF` mod 0x10000. -/
theorem checksum_spec_witness :
    ∃ e2 : EPROM, (EPROM.init 4 0).addBytesToImage 2 [0x12] = .ok e2 ∧
      (e2.checksum : Int) =
        (((EPROM.init 4 0).checksum : Int) + 0x12
          - (EPROM.init 4 0).image.getD ((2 : Int) - 0).toNat 0) % 0x10000 :=
  checksum_spec.2.2 (EPROM.init 4 0) 2 0x12 (by decide) (by decide) (by decide)

/-! ## C7 — Raw Hex decoding -/

/-- C7 counterexample: on the single line "1 2" the code decodes no byte at all
(`re.findall` only matches ADJACENT hex-digit pairs, so the separator between
the digits is not "ignored"), while the claim's reading — drop comment lines,
ignore every non-hex character, pair the surviving digits — yields `[0x12]`. -/
theorem raw_hex_separated_digits :
    _import_hex "1 2" = [] ∧ specRawHexDecode "1 2" = [0x12] ∧
    _import_hex "1 2" ≠ specRawHexDecode "1 2" := by
  decide

/-- C7 (amended): blank lines and comment lines whose first non-whitespace
character is `#` are skipped; within each remaining line the scanner walks
left to right collecting pairs of ADJACENT hex digits, one byte each —
a non-hex character is dropped, and a hex digit NOT followed immediately by a
second hex digit is dropped with it; the decoded bytes of a file form one
contiguous run starting at the caller-supplied base address. -/
theorem raw_hex_scan_rules :
    (∀ c : List Char, stripChars c = [] ∨ (stripChars c).headD ' ' = '#' →
      ∀ ls1 ls2, importHexLines (ls1 ++ c :: ls2) = importHexLines (ls1 ++ ls2)) ∧
    (∀ (a b : Char) (rest : List Char), isHexDigit a = true → isHexDigit b = true →
      hexPairs (a :: b :: rest) = (16 * hexVal a + hexVal b) :: hexPairs rest) ∧
    (∀ (a : Char) (rest : List Char), isHexDigit a = false →
      hexPairs (a :: rest) = hexPairs rest) ∧
    (∀ (a b : Char) (rest : List Char), isHexDigit a = true → isHexDigit b = false →
      hexPairs (a :: b :: rest) = hexPairs (b :: rest)) ∧
    (∀ (e : EPROM) (addr : Int) (content : String), e.binfile = [] →
      _import_hex content ≠ [] →
      add_binary e.binfile addr (_import_hex content)
        = .ok (insertRun (addr, _import_hex content) [])) := by
  refine ⟨?_, ?_, ?_, ?_, ?_⟩
  · intro c hc ls1
    induction ls1 with
    | nil =>
      intro ls2
      simp only [List.nil_append]
      rcases hc with hc | hc
      · simp only [importHexLines, hc]
      · cases hs : stripChars c with
        | nil => simp only [importHexLines, hs]
        | cons c0 cs =>
          rw [hs] at hc
          simp only [List.headD_cons] at hc
          simp only [importHexLines, hs, hc, if_pos]
    | cons l ls ih =>
      intro ls2
      simp only [List.cons_append]
      cases hs : stripChars l with
      | nil => simp only [importHexLines, hs, ih ls2]
      | cons c0 cs =>
        by_cases h0 : c0 = '#'
        · simp only [importHexLines, hs, h0, if_pos, ih ls2]
        · simp only [importHexLines, hs, h0, if_neg, if_false, ih ls2]
  · intro a b rest ha hb
    simp only [hexPairs, ha, hb, Bool.and_self, if_pos]
  · intro a rest ha
    cases rest with
    | nil => simp [hexPairs]
    | cons b rest' =>
      simp only [hexPairs, ha, Bool.false_and, Bool.false_eq_true, if_false]
  · intro a b rest ha hb
    simp only [hexPairs, ha, hb, Bool.and_false, Bool.false_eq_true, if_false]
  · intro e addr content hbin hne
    rw [hbin]
    unfold add_binary
    rw [if_neg (by simp [hne])]
    simp only [List.any_nil, Bool.false_eq_true, if_false]

/-- C7 witness: a comment line is dropped between two data lines; 'A''B'
adjacent decode to one byte; a space is skipped; the digit '1' severed from
'2' by a space is dropped; and the bytes of "AB" become one run at address 5
in an empty store. -/
theorem raw_hex_scan_rules_witness :
    importHexLines ([['1', '2']] ++ ['#', 'c'] :: [['3', '4']])
      = importHexLines ([['1', '2']] ++ [['3', '4']]) ∧
    hexPairs ['A', 'B', '3'] = (16 * hexVal 'A' + hexVal 'B') :: hexPairs ['3'] ∧
    hexPairs [' ', '1'] = hexPairs ['1'] ∧
    hexPairs ['1', ' ', '2'] = hexPairs [' ', '2'] ∧
    add_binary (EPROM.init 4 0).binfile 5 (_import_hex "AB")
      = .ok (insertRun (5, _import_hex "AB") []) := by
  refine ⟨raw_hex_scan_rules.1 ['#', 'c'] (by decide) [['1', '2']] [['3', '4']],
    raw_hex_scan_rules.2.1 'A' 'B' ['3'] (by decide) (by decide),
    raw_hex_scan_rules.2.2.1 ' ' ['1'] (by decide),
    raw_hex_scan_rules.2.2.2.1 '1' ' ' ['2'] (by decide) (by decide),
    raw_hex_scan_rules.2.2.2.2 (EPROM.init 4 0) 5 "AB" (by decide) (by decide)⟩

/-! ## C6 — file-type selection -/

theorem readline_toList_cons {content : String} {c0 : Char} {cs : List Char}
    (h : content.toList = c0 :: cs) :
    ∃ rest, (readline content).toList = c0 :: rest := by
  simp only [readline, String.toList]
  rw [show content.data = c0 :: cs from h]
  by_cases h0 : c0 = '\n'
  · subst h0
    refine ⟨[], ?_⟩
    have ht : List.takeWhile (fun c => !decide (c = '\n')) ('\n' :: cs) = [] := by
      simp [List.takeWhile_cons]
    simp only [decide_not] at ht ⊢
    rw [ht]
    simp
  · have ht : List.takeWhile (fun c => !decide (c = '\n')) (c0 :: cs)
        = c0 :: List.takeWhile (fun c => !decide (c = '\n')) cs := by
      simp [List.takeWhile_cons, h0]
    simp only [decide_not] at ht ⊢
    rw [ht]
    split
    · exact ⟨_, by rw [List.cons_append]⟩
    · exact ⟨_, rfl⟩

/-- C6 counterexample: a `.hex` file with EMPTY content makes `_get_filetype`
raise the host `IndexError` (`line[0]` on the empty first line,
epromimage.py:285) instead of returning "hex" as the claim's "otherwise"
branch requires. -/
theorem hex_sniffing_empty_file :
    _get_filetype "prog.hex" (some "") = .error .indexErr ∧
    _get_filetype "prog.hex" (some "") ≠ .ok (some "hex") ∧
    _get_filetype "prog.hex" (some "") ≠ .ok (some "intelhex") := by
  decide

/-- C6 (amended): extension `.s19` selects "srecord", `.bin` selects "binary",
`.ihex` selects "intelhex"; `.hex` with NONEMPTY content selects "intelhex"
when the first character is `:` and "hex" otherwise, while `.hex` with empty
content raises an uncaught host `IndexError`; an unrecognized extension makes
`_get_filetype` return `None` and `readfile` fail with the unknown-file-type
error; and whenever `readfile` succeeds it returns exactly the tag
`_get_filetype` resolved, one of "srecord", "hex", "intelhex", "binary". -/
theorem readfile_format_selection :
    (∀ f : Option String, _get_filetype "prog.s19" f = .ok (some "srecord")) ∧
    (∀ f : Option String, _get_filetype "prog.bin" f = .ok (some "binary")) ∧
    (∀ f : Option String, _get_filetype "prog.ihex" f = .ok (some "intelhex")) ∧
    (∀ (content : String) (c0 : Char) (cs : List Char), content.toList = c0 :: cs →
      _get_filetype "prog.hex" (some content)
        = .ok (some (if c0 = ':' then "intelhex" else "hex"))) ∧
    (_get_filetype "prog.hex" (some "") = .error .indexErr) ∧
    (∀ content : String, _get_filetype "prog.txt" (some content) = .ok none) ∧
    (∀ (ps pi pb : FileParser) (e : EPROM) (content : String) (a : Int),
      EPROM.readfile ps pi pb e "prog.txt" (some content) a
        = .error (.unknownFileType "prog.txt")) ∧
    (∀ (ps pi pb : FileParser) (e : EPROM) (fn : String) (file : Option String) (a : Int)
      (tag : String) (e2 : EPROM),
      EPROM.readfile ps pi pb e fn file a = .ok (tag, e2) →
      _get_filetype fn file = .ok (some tag) ∧
      (tag = "srecord" ∨ tag = "hex" ∨ tag = "intelhex" ∨ tag = "binary")) := by
  refine ⟨fun f => rfl, fun f => rfl, fun f => rfl, ?_, by decide, fun c => rfl,
    fun ps pi pb e c a => rfl, ?_⟩
  · intro content c0 cs h
    obtain ⟨rest, hr⟩ := readline_toList_cons h
    have hred : _get_filetype "prog.hex" (some content)
        = (match (readline content).toList with
           | [] => .error .indexErr
           | c0 :: _ => if c0 = ':' then .ok (some "intelhex") else .ok (some "hex")) := rfl
    rw [hred, hr]
    by_cases hc : c0 = ':'
    · simp [hc]
    · simp [hc]
  · intro ps pi pb e fn file a tag e2 h
    unfold EPROM.readfile at h
    split at h
    · exact absurd h (by simp)
    · rename_i oft heq
      dsimp only at h
      split at h
      · exact absurd h (by simp)
      · rename_i segs heq1
        split at h
        · exact absurd h (by simp)
        · rename_i e3 heq2
          split at h
          · rename_i t heq3
            injection h with hpair
            cases hpair
            constructor
            · rw [heq]
            · by_cases h1 : tag = "srecord"
              · exact .inl h1
              · by_cases h2 : tag = "binary"
                · exact .inr (.inr (.inr h2))
                · by_cases h3 : tag = "intelhex"
                  · exact .inr (.inr (.inl h3))
                  · by_cases h4 : tag = "hex"
                    · exact .inr (.inl h4)
                    · rw [if_neg (by simp [h1]), if_neg (by simp [h2]),
                        if_neg (by simp [h3]), if_neg (by simp [h4])] at heq1
                      exact absurd heq1 (by simp)
          · exact absurd h (by simp)

/-- C6 witness: the sniffing rules at concrete files — a `.s19` name, a `.hex`
file whose content "AB" starts with a non-colon (so "hex"), and a successful
`readfile` of a `.s19` file returning the resolved "srecord" tag. -/
theorem readfile_format_selection_witness :
    _get_filetype "prog.s19" (some "x") = .ok (some "srecord") ∧
    _get_filetype "prog.hex" (some "AB")
      = .ok (some (if 'A' = ':' then "intelhex" else "hex")) ∧
    (_get_filetype "f.s19" (some "z") = .ok (some "srecord") ∧
      ("srecord" = "srecord" ∨ "srecord" = "hex" ∨ "srecord" = "intelhex" ∨
        "srecord" = "binary")) :=
  ⟨readfile_format_selection.1 (some "x"),
   readfile_format_selection.2.2.2.1 "AB" 'A' ['B'] (by decide),
   readfile_format_selection.2.2.2.2.2.2.2 (fun _ s => .ok s) (fun _ s => .ok s)
     (fun _ s => .ok s) (EPROM.init 4 0) "f.s19" (some "z") 0 "srecord"
     (EPROM.init 4 0) (by decide)⟩

/-! ## C9 — scan-only mode -/

theorem foldl_min_le (l : List Seg) (a : Int) :
    l.foldl (fun m t => min m t.1) a ≤ a ∧
      ∀ s ∈ l, l.foldl (fun m t => min m t.1) a ≤ s.1 := by
  induction l generalizing a with
  | nil => exact ⟨le_rfl, by simp⟩
  | cons t rest ih =>
    simp only [List.foldl_cons]
    refine ⟨le_trans (ih (min a t.1)).1 (min_le_left _ _), ?_⟩
    intro s hs
    rcases List.mem_cons.mp hs with h | h
    · rw [h]
      exact le_trans (ih (min a t.1)).1 (min_le_right _ _)
    · exact (ih (min a t.1)).2 s h

theorem foldl_min_attained (l : List Seg) (a : Int) :
    l.foldl (fun m t => min m t.1) a = a ∨
      ∃ s ∈ l, l.foldl (fun m t => min m t.1) a = s.1 := by
  induction l generalizing a with
  | nil => exact .inl rfl
  | cons t rest ih =>
    simp only [List.foldl_cons]
    rcases ih (min a t.1) with h | ⟨s, hs, h⟩
    · rcases min_cases a t.1 with ⟨hm, _⟩ | ⟨hm, _⟩
      · exact .inl (h.trans hm)
      · exact .inr ⟨t, List.mem_cons_self _ _, h.trans hm⟩
    · exact .inr ⟨s, List.mem_cons_of_mem _ hs, h⟩

theorem foldl_max_ge (l : List Seg) (a : Int) :
    a ≤ l.foldl (fun m t => max m (segEnd t)) a ∧
      ∀ s ∈ l, segEnd s ≤ l.foldl (fun m t => max m (segEnd t)) a := by
  induction l generalizing a with
  | nil => exact ⟨le_rfl, by simp⟩
  | cons t rest ih =>
    simp only [List.foldl_cons]
    refine ⟨le_trans (le_max_left _ _) (ih (max a (segEnd t))).1, ?_⟩
    intro s hs
    rcases List.mem_cons.mp hs with h | h
    · rw [h]
      exact le_trans (le_max_right _ _) (ih (max a (segEnd t))).1
    · exact (ih (max a (segEnd t))).2 s h

theorem foldl_max_attained (l : List Seg) (a : Int) :
    l.foldl (fun m t => max m (segEnd t)) a = a ∨
      ∃ s ∈ l, l.foldl (fun m t => max m (segEnd t)) a = segEnd s := by
  induction l generalizing a with
  | nil => exact .inl rfl
  | cons t rest ih =>
    simp only [List.foldl_cons]
    rcases ih (max a (segEnd t)) with h | ⟨s, hs, h⟩
    · rcases max_cases a (segEnd t) with ⟨hm, _⟩ | ⟨hm, _⟩
      · exact .inl (h.trans hm)
      · exact .inr ⟨t, List.mem_cons_self _ _, h.trans hm⟩
    · exact .inr ⟨s, List.mem_cons_of_mem _ hs, h⟩

/-- `minimum_address` is an occupied address, and no occupied address is
below it (data nonempty). -/
theorem minimum_address_is_least {segs : List Seg} {m : Int}
    (h : minimum_address segs = some m) (hne : ∀ s ∈ segs, s.2 ≠ []) :
    covers segs m ∧ ∀ x : Int, covers segs x → m ≤ x := by
  cases segs with
  | nil => cases h
  | cons s0 rest =>
    unfold minimum_address at h
    injection h with hm
    subst hm
    constructor
    · rcases foldl_min_attained rest s0.1 with h | ⟨s, hs, h⟩
      · rw [h]
        refine ⟨s0, List.mem_cons_self _ _, le_rfl, ?_⟩
        unfold segEnd
        have := List.length_pos.mpr (hne s0 (List.mem_cons_self _ _))
        omega
      · rw [h]
        refine ⟨s, List.mem_cons_of_mem _ hs, le_rfl, ?_⟩
        unfold segEnd
        have := List.length_pos.mpr (hne s (List.mem_cons_of_mem _ hs))
        omega
    · rintro x ⟨s, hs, h1, _⟩
      rcases List.mem_cons.mp hs with h | h
      · exact le_trans ((foldl_min_le rest s0.1).1.trans (by rw [h])) h1
      · exact le_trans ((foldl_min_le rest s0.1).2 s h) h1

/-- `maximum_address` is one past an occupied address, and every occupied
address lies below it (data nonempty). -/
theorem maximum_address_is_greatest {segs : List Seg} {M : Int}
    (h : maximum_address segs = some M) (hne : ∀ s ∈ segs, s.2 ≠ []) :
    covers segs (M - 1) ∧ ∀ x : Int, covers segs x → x < M := by
  cases segs with
  | nil => cases h
  | cons s0 rest =>
    unfold maximum_address at h
    injection h with hm
    subst hm
    constructor
    · rcases foldl_max_attained rest (segEnd s0) with h | ⟨s, hs, h⟩
      · rw [h]
        refine ⟨s0, List.mem_cons_self _ _, ?_, ?_⟩
        · unfold segEnd
          have := List.length_pos.mpr (hne s0 (List.mem_cons_self _ _))
          omega
        · unfold segEnd
          have := List.length_pos.mpr (hne s0 (List.mem_cons_self _ _))
          omega
      · rw [h]
        refine ⟨s, List.mem_cons_of_mem _ hs, ?_, ?_⟩
        · unfold segEnd
          have := List.length_pos.mpr (hne s (List.mem_cons_of_mem _ hs))
          omega
        · unfold segEnd
          have := List.length_pos.mpr (hne s (List.mem_cons_of_mem _ hs))
          omega
    · rintro x ⟨s, hs, _, h2⟩
      rcases List.mem_cons.mp hs with h | h
      · rw [h] at h2
        exact lt_of_lt_of_le h2 (foldl_max_ge rest (segEnd s0)).1
      · exact lt_of_lt_of_le h2 ((foldl_max_ge rest (segEnd s0)).2 s h)

/-- Modelled from the spec: the segment list `bincopy.add_srec_file` produces
for a two-record S-Record file carrying the 2 data bytes 0x61 0x62 at address
0x0000 and the 3 data bytes 0x78 0x79 0x7A at address 0x0020 (spec §4.2) —
two disjoint runs.  The parser parameter ignores the already-empty store. -/
def srecTwoRuns : FileParser :=
  fun _ _ => .ok [(0, [0x61, 0x62]), (0x20, [0x78, 0x79, 0x7A])]

/-- The wire text of that two-record S-Record file (checksummed per §4.2). -/
def srecSample : String := "S1050000616237\nS106002078797A6E\nS9030000FC"

/-- C9 counterexample: on a file whose two disjoint runs carry 2 + 3 = 5 data
bytes at addresses 0..1 and 0x20..0x22, `scanfile` reports
`alen = aend - astart + 1 = 0x23` — the SPAN between the extreme occupied
addresses — not the total length 5 of the file's data. -/
theorem scanfile_length_is_span :
    scanfile srecTwoRuns srecTwoRuns srecTwoRuns (fun _ => "") "f.s19" (some srecSample)
      = .ok ("srecord", 0, 0x22, 0x23, [(0, 1, 2), (0x20, 0x22, 3)], "") ∧
    (([(0, [0x61, 0x62]), (0x20, [0x78, 0x79, 0x7A])] : List Seg).map
      (fun s => s.2.length)).sum = 5 ∧
    (0x23 : Int) ≠ 5 := by
  refine ⟨rfl, by decide, by decide⟩

/-- C9 (amended): whenever `scanfile` succeeds it returns the 6-tuple
`(format, astart, aend, alen, chunkList, hexDumpText)` where, for the parsed
segment list: `astart` is the least occupied absolute address and `aend` the
greatest (for runs with nonempty data), `alen` is the SPAN
`aend - astart + 1` (not the total data length), `chunkList` lists every
segment as `(start, end, length)`, and the dump text is the external
bincopy hex dump of the segments — all without constructing any `EPROM`. -/
theorem scanfile_reports (ps pi pb : FileParser) (hd : List Seg → String)
    (fn : String) (file : Option String) (tag : String) (astart aend alen : Int)
    (cl : List (Int × Int × Nat)) (txt : String)
    (h : scanfile ps pi pb hd fn file = .ok (tag, astart, aend, alen, cl, txt)) :
    alen = aend - astart + 1 ∧
    ∃ segs : List Seg,
      cl = segs.map (fun s => (s.1, segEnd s - 1, s.2.length)) ∧
      txt = hd segs ∧
      minimum_address segs = some astart ∧
      maximum_address segs = some (aend + 1) ∧
      ((∀ s ∈ segs, s.2 ≠ []) →
        covers segs astart ∧ covers segs aend ∧
          ∀ x : Int, covers segs x → astart ≤ x ∧ x ≤ aend) := by
  unfold scanfile at h
  split at h
  · exact absurd h (by simp)
  · rename_i oft heq
    dsimp only at h
    split at h
    · exact absurd h (by simp)
    · rename_i segs heqp
      split at h
      · rename_i oft2 astart2 amax2 tag2 hmin hmax
        simp only [Except.ok.injEq, Prod.mk.injEq] at h
        obtain ⟨h1, h2, h3, h4, h5, h6⟩ := h
        constructor
        · omega
        · refine ⟨segs, h5.symm, h6.symm, ?_, ?_, ?_⟩
          · rw [← h2]
            exact hmin
          · rw [show aend + 1 = amax2 by omega]
            exact hmax
          · intro hne
            obtain ⟨hminc, hminlb⟩ := minimum_address_is_least hmin hne
            obtain ⟨hmaxc, hmaxub⟩ := maximum_address_is_greatest hmax hne
            refine ⟨by rw [← h2]; exact hminc, ?_, ?_⟩
            · rw [show aend = amax2 - 1 by omega]
              exact hmaxc
            · intro x hx
              have hq1 := hminlb x hx
              have hq2 := hmaxub x hx
              omega
      · exact absurd h (by simp)

/-- C9 witness: the amended reporting contract instantiated on the concrete
two-run S-Record scan. -/
theorem scanfile_reports_witness :
    (0x23 : Int) = 0x22 - 0 + 1 ∧
    ∃ segs : List Seg,
      [((0 : Int), (1 : Int), 2), ((0x20 : Int), (0x22 : Int), 3)]
        = segs.map (fun s => (s.1, segEnd s - 1, s.2.length)) ∧
      "" = (fun _ : List Seg => "") segs ∧
      minimum_address segs = some 0 ∧
      maximum_address segs = some (0x22 + 1) ∧
      ((∀ s ∈ segs, s.2 ≠ []) →
        covers segs 0 ∧ covers segs 0x22 ∧
          ∀ x : Int, covers segs x → 0 ≤ x ∧ x ≤ 0x22) :=
  scanfile_reports srecTwoRuns srecTwoRuns srecTwoRuns (fun _ => "") "f.s19"
    (some srecSample) "srecord" 0 0x22 0x23 [(0, 1, 2), (0x20, 0x22, 3)] "" rfl

end EpromImage
